import Mathlib

/-!
Shallow embedding of `src/epg_filter.py`: a batch pipeline that loads a
channel whitelist from a text file, filters fetched XMLTV documents against
it, deduplicates the union of the per-document results and emits one merged
document.  Network fetch, file reading and XML serialisation are external
collaborators; they are modelled by their results (a fetched source is an
`Option EpgDocument`, the written file is the returned document).
-/

namespace EpgFilter

/-- The characters Python `str.strip()` removes at either end (ASCII
whitespace; the source never feeds it other whitespace code points). -/
def isPySpace (c : Char) : Bool :=
  c = ' ' || c = '\t' || c = '\n' || c = '\r' || c = '\x0b' || c = '\x0c'

/-- Python `s.strip()`: drop leading and trailing whitespace. -/
def pyStrip (s : String) : String :=
  ⟨((s.data.dropWhile isPySpace).reverse.dropWhile isPySpace).reverse⟩

/-- Python `s.split(",")` on the list of characters: every comma separates,
an empty string yields `[""]`. -/
def splitCommasAux : List Char → List Char → List String
  | [], acc => [⟨acc.reverse⟩]
  | c :: cs, acc =>
    if c = ',' then ⟨acc.reverse⟩ :: splitCommasAux cs [] else splitCommasAux cs (c :: acc)

/-- Python `line.split(",")`. -/
def splitCommas (s : String) : List String := splitCommasAux s.data []

/-- Python `"," in line`. -/
def hasComma (s : String) : Bool := s.data.contains ','

/-- Python `line.startswith("#")`. -/
def startsWithHash (s : String) : Bool :=
  match s.data with
  | [] => false
  | c :: _ => c = '#'

/-- The tuple `(tvg_id, tvg_name, current_country, remark)` stored per
whitelist entry by `read_channel_list`. -/
structure ChannelEntry where
  tvg_id : String
  tvg_name : String
  country : String
  remark : String
deriving DecidableEq, Repr

/-- `channel_dict`: a Python dict from the key `f"{tvg_id}_{tvg_name}"` to a
`ChannelEntry`, as an ordered association list (Python dicts preserve
insertion order; assigning to a present key replaces the value in place). -/
abbrev ChannelDict := List (String × ChannelEntry)

/-- Python `channel_dict[key] = value`: replace in place when the key is
present, append otherwise. -/
def dictInsert : ChannelDict → String → ChannelEntry → ChannelDict
  | [], k, v => [(k, v)]
  | p :: rest, k, v => if p.1 = k then (k, v) :: rest else p :: dictInsert rest k v

/-- Python `channel_dict.get(key)`: the value stored at the key. -/
def dictLookup (d : ChannelDict) (k : String) : Option ChannelEntry :=
  (d.find? (fun p => p.1 = k)).map Prod.snd

/-- The loop state of `read_channel_list`: the dict built so far and
`current_country` (None until a country line is seen; a country line is
non-empty, so Python truthiness of `current_country` is `Option.isSome`). -/
structure LoaderState where
  dict : ChannelDict
  currentCountry : Option String
deriving DecidableEq, Repr

/-- One iteration of the line loop of `read_channel_list`
(src/epg_filter.py lines 31-67): strip the line; skip blanks and `#`
comments; a line without a comma sets the current country; otherwise split
on commas, requiring exactly 3 fields, a current country, and not both
`tvg_id` and `tvg_name` empty, then store the entry under
`f"{tvg_id}_{tvg_name}"`.  (The `print` calls are log output only.) -/
def processLine (st : LoaderState) (rawLine : String) : LoaderState :=
  let line := pyStrip rawLine
  if line = "" ∨ startsWithHash line = true then st
  else if hasComma line = false then ⟨st.dict, some line⟩
  else
    let fields := splitCommas line
    if fields.length ≠ 3 then st
    else
      let tvg_id := pyStrip (fields.getD 0 "")
      let tvg_name := pyStrip (fields.getD 1 "")
      let remark := pyStrip (fields.getD 2 "")
      match st.currentCountry with
      | none => st
      | some country =>
        if tvg_id = "" ∧ tvg_name = "" then st
        else ⟨dictInsert st.dict (tvg_id ++ "_" ++ tvg_name)
                ⟨tvg_id, tvg_name, country, remark⟩, st.currentCountry⟩

/-- The initial loader state: empty dict, `current_country = None`. -/
def initLoaderState : LoaderState := ⟨[], none⟩

/-- `read_channel_list` over the lines of the whitelist file (file existence
and reading are external plumbing; a missing file yields no lines). -/
def read_channel_list (lines : List String) : ChannelDict :=
  (lines.foldl processLine initLoaderState).dict

/-- A `channel` element of an XMLTV document: its optional `id` attribute and
the text of each `display-name` child (`dn.text` is None for an element with
no text). -/
structure Channel where
  id : Option String
  displayNames : List (Option String)
deriving DecidableEq, Repr

/-- A `programme` element: its optional `start` and `channel` attributes. -/
structure Programme where
  start : Option String
  channel : Option String
deriving DecidableEq, Repr

/-- A parsed XMLTV root element: its attribute mapping, the `channel` and
`programme` children in document order, and the number of children of any
other tag (`len(root)` counts them all, which Python element truthiness
tests). -/
structure EpgDocument where
  attrib : List (String × String)
  channels : List Channel
  programmes : List Programme
  otherChildren : Nat
deriving DecidableEq, Repr

/-- Python truthiness of an `Element`: `bool(root)` is `len(root) != 0`. -/
def truthyRoot (d : EpgDocument) : Bool :=
  d.channels.length + d.programmes.length + d.otherChildren ≠ 0

/-- `channel.get("id", "").strip()` (src/epg_filter.py line 97). -/
def currentTvgId (ch : Channel) : String := pyStrip (ch.id.getD "")

/-- The resolved display name (lines 98-103): the stripped text of the first
`display-name` child whose text is present and non-blank, else `""`. -/
def currentTvgName (ch : Channel) : String :=
  resolve ch.displayNames
where
  resolve : List (Option String) → String
    | [] => ""
    | none :: rest => resolve rest
    | some t :: rest => if t ≠ "" ∧ pyStrip t ≠ "" then pyStrip t else resolve rest

/-- `[info[0] for info in channel_dict.values() if info[0]]` (line 92). -/
def targetTvgIds (dict : ChannelDict) : List String :=
  (dict.map (fun p => p.2.tvg_id)).filter (fun s => decide (s ≠ ""))

/-- `[info[1] for info in channel_dict.values() if info[1]]` (line 93). -/
def targetTvgNames (dict : ChannelDict) : List String :=
  (dict.map (fun p => p.2.tvg_name)).filter (fun s => decide (s ≠ ""))

/-- `is_matched` (line 106): the channel id or resolved display name occurs
in the respective whitelist value list. -/
def channelMatches (dict : ChannelDict) (ch : Channel) : Bool :=
  decide (currentTvgId ch ∈ targetTvgIds dict) ||
    decide (currentTvgName ch ∈ targetTvgNames dict)

/-- Python truthiness of `ch.get("id")` (line 123): present and non-empty. -/
def idTruthy (ch : Channel) : Bool :=
  match ch.id with
  | none => false
  | some s => decide (s ≠ "")

/-- `filtered_tvg_ids` (line 123): the stripped ids of the kept channels
whose raw `id` attribute is truthy. -/
def matchedIds (chs : List Channel) : List String :=
  (chs.filter idTruthy).map (fun ch => pyStrip (ch.id.getD ""))

/-- `programme.get("channel", "").strip()` (line 125). -/
def progChannel (p : Programme) : String := pyStrip (p.channel.getD "")

/-- `prog.get("start", "").strip()` (line 209). -/
def progStart (p : Programme) : String := pyStrip (p.start.getD "")

/-- `filter_channels` (lines 88-130): keep the channels whose id or resolved
name matches the whitelist, then the programmes whose `channel` attribute is
among the kept, truthy, stripped channel ids.  (The `matched_info` scan of
lines 110-118 only feeds the log line and is omitted.) -/
def filter_channels (epg_root : EpgDocument) (dict : ChannelDict) :
    List Channel × List Programme :=
  let filtered_channels := epg_root.channels.filter (channelMatches dict)
  let filtered_tvg_ids := matchedIds filtered_channels
  let filtered_programmes :=
    epg_root.programmes.filter (fun p => decide (progChannel p ∈ filtered_tvg_ids))
  (filtered_channels, filtered_programmes)

/-- Python truthiness of the `first_epg_root` variable: None is falsy, an
element is falsy when childless. -/
def pyNotOptRoot : Option EpgDocument → Bool
  | none => true
  | some d => !truthyRoot d

/-- The accumulator of the source loop in `__main__` (lines 172-189):
`first_epg_root`, `all_filtered_channels`, `all_filtered_programmes`. -/
structure MainState where
  first : Option EpgDocument
  channels : List Channel
  programmes : List Programme
deriving DecidableEq, Repr

/-- One iteration of the source loop (lines 176-189) on the fetch result of
one URL: `if not epg_root: continue` skips a failed fetch and also a
successfully parsed childless root (element truthiness); otherwise record the
first root, filter, and extend the accumulated lists. -/
def processResult (dict : ChannelDict) (st : MainState) (r : Option EpgDocument) :
    MainState :=
  match r with
  | none => st
  | some epg_root =>
    if truthyRoot epg_root = false then st
    else
      let first := if pyNotOptRoot st.first = true then some epg_root else st.first
      let cp := filter_channels epg_root dict
      ⟨first, st.channels ++ cp.1, st.programmes ++ cp.2⟩

/-- The whole source loop over the fetch results of `RAW_EPG_URLS`. -/
def processAll (dict : ChannelDict) (results : List (Option EpgDocument)) : MainState :=
  results.foldl (processResult dict) ⟨none, [], []⟩

/-- The documents the loop actually passes to `filter_channels`: the fetch
succeeded and the parsed root is truthy. -/
def processedDocs (results : List (Option EpgDocument)) : List EpgDocument :=
  results.filterMap (fun r =>
    match r with
    | none => none
    | some d => if truthyRoot d = true then some d else none)

/-- The generic first-occurrence dedupe of lines 196-214: walk the list with
a seen-key set, keep an element only when its key is new. -/
def dedupeByAux (key : α → String) (seen : List String) : List α → List α
  | [] => []
  | x :: xs =>
    if key x ∈ seen then dedupeByAux key seen xs
    else x :: dedupeByAux key (key x :: seen) xs

/-- First-occurrence dedupe starting from an empty seen set. -/
def dedupeBy (key : α → String) (l : List α) : List α := dedupeByAux key [] l

/-- The channel dedupe key `ch.get("id", "").strip()` (line 200). -/
def chKey (ch : Channel) : String := pyStrip (ch.id.getD "")

/-- The programme dedupe key `f"{prog_start}_{prog_channel}"` (line 211). -/
def progKey (p : Programme) : String := progStart p ++ "_" ++ progChannel p

/-- Channel dedupe (lines 196-203). -/
def dedupeChannels : List Channel → List Channel := dedupeBy chKey

/-- Programme dedupe (lines 206-214). -/
def dedupeProgrammes : List Programme → List Programme := dedupeBy progKey

/-- `generate_custom_epg` (lines 132-158): abort (return False, writing
nothing) when the channel list is empty; otherwise build the output root
from the attributes of the first fetched root plus the channels and then
the programmes, and write it.  The written document is the returned value;
serialisation is external. -/
def generate_custom_epg (filtered_channels : List Channel)
    (filtered_programmes : List Programme) (epg_root : EpgDocument) :
    Option EpgDocument :=
  if filtered_channels.isEmpty then none
  else some ⟨epg_root.attrib, filtered_channels, filtered_programmes, 0⟩

/-- The channels contributed to `all_filtered_channels` across all sources:
the per-document filter output of every processed document, concatenated. -/
def aggChannels (dict : ChannelDict) (results : List (Option EpgDocument)) :
    List Channel :=
  (processedDocs results).flatMap (fun d => (filter_channels d dict).1)

/-- The programmes contributed to `all_filtered_programmes` across all
sources. -/
def aggProgrammes (dict : ChannelDict) (results : List (Option EpgDocument)) :
    List Programme :=
  (processedDocs results).flatMap (fun d => (filter_channels d dict).2)

/-- `x` is the first element of `l` bearing its key: some decomposition
`l = pre ++ x :: post` has no element of `pre` sharing the key of `x`. -/
def firstWithKey (key : α → String) (x : α) (l : List α) : Prop :=
  ∃ pre post, l = pre ++ x :: post ∧ ∀ y ∈ pre, key y ≠ key x

/-- A successfully parsed document whose root carries attributes but no child
elements: `bool(root)` is False for it. -/
def emptyRootDoc : EpgDocument := ⟨[("generator-info-name", "x")], [], [], 0⟩

/-- A programme whose start contains an underscore. -/
def progUnderscoreStart : Programme := ⟨some "a_b", some "c"⟩

/-- A programme with a different `(start, channel)` pair but the same
composite dedupe key as `progUnderscoreStart`. -/
def progUnderscoreChannel : Programme := ⟨some "a", some "b_c"⟩

/-- A one-entry whitelist matching only by name. -/
def nameOnlyDict : ChannelDict := [("_BBC One", ⟨"", "BBC One", "UK", "HD"⟩)]

/-! ## Helper lemmas -/

theorem hasComma_ne_empty {s : String} (h : hasComma s = true) : s ≠ "" := by
  intro he
  subst he
  simp [hasComma] at h

theorem dictLookup_dictInsert_self (d : ChannelDict) (k : String) (v : ChannelEntry) :
    dictLookup (dictInsert d k v) k = some v := by
  induction d with
  | nil => simp [dictInsert, dictLookup, List.find?]
  | cons p rest ih =>
    by_cases h : p.1 = k
    · simp [dictInsert, h, dictLookup, List.find?]
    · simp only [dictInsert, if_neg h]
      simpa [dictLookup, List.find?, h] using ih

theorem firstWithKey_nil (key : α → String) (x : α) : ¬ firstWithKey key x [] := by
  rintro ⟨pre, post, h, -⟩
  exact (List.cons_ne_nil x post) (List.append_eq_nil.mp h.symm).2

theorem firstWithKey_cons (key : α → String) (x a : α) (l : List α) :
    firstWithKey key x (a :: l) ↔
      x = a ∨ (key a ≠ key x ∧ firstWithKey key x l) := by
  constructor
  · rintro ⟨pre, post, h, hfree⟩
    cases pre with
    | nil =>
      simp only [List.nil_append, List.cons.injEq] at h
      exact Or.inl h.1.symm
    | cons b pre =>
      simp only [List.cons_append, List.cons.injEq] at h
      obtain ⟨rfl, hl⟩ := h
      exact Or.inr ⟨hfree a (by simp), pre, post, hl,
        fun y hy => hfree y (by simp [hy])⟩
  · rintro (rfl | ⟨hne, pre, post, rfl, hfree⟩)
    · exact ⟨[], l, rfl, by simp⟩
    · refine ⟨a :: pre, post, rfl, ?_⟩
      intro y hy
      rcases List.mem_cons.mp hy with rfl | hy
      · exact hne
      · exact hfree y hy

theorem mem_dedupeByAux (key : α → String) (seen : List String) (l : List α) (x : α) :
    x ∈ dedupeByAux key seen l ↔ key x ∉ seen ∧ firstWithKey key x l := by
  induction l generalizing seen with
  | nil =>
    simp [dedupeByAux, firstWithKey_nil]
  | cons a l ih =>
    simp only [dedupeByAux]
    by_cases h : key a ∈ seen
    · rw [if_pos h, ih, firstWithKey_cons]
      constructor
      · rintro ⟨hns, hfo⟩
        exact ⟨hns, Or.inr ⟨fun he => hns (he ▸ h), hfo⟩⟩
      · rintro ⟨hns, (rfl | ⟨-, hfo⟩)⟩
        · exact absurd h hns
        · exact ⟨hns, hfo⟩
    · rw [if_neg h, List.mem_cons, ih, firstWithKey_cons]
      constructor
      · rintro (rfl | ⟨hns, hfo⟩)
        · exact ⟨h, Or.inl rfl⟩
        · have hxs : key x ∉ seen := fun hk => hns (List.mem_cons_of_mem _ hk)
          have hne : key a ≠ key x := fun he => hns (by rw [← he]; exact List.mem_cons_self _ _)
          exact ⟨hxs, Or.inr ⟨hne, hfo⟩⟩
      · rintro ⟨hns, (rfl | ⟨hne, hfo⟩)⟩
        · exact Or.inl rfl
        · refine Or.inr ⟨?_, hfo⟩
          intro hk
          rcases List.mem_cons.mp hk with he | hk
          · exact hne he.symm
          · exact hns hk

theorem mem_dedupeBy (key : α → String) (l : List α) (x : α) :
    x ∈ dedupeBy key l ↔ firstWithKey key x l := by
  rw [dedupeBy, mem_dedupeByAux]
  simp

theorem nodup_keys_dedupeByAux (key : α → String) (l : List α) :
    ∀ seen : List String, ((dedupeByAux key seen l).map key).Nodup := by
  induction l with
  | nil => intro seen; simp [dedupeByAux]
  | cons a l ih =>
    intro seen
    simp only [dedupeByAux]
    by_cases h : key a ∈ seen
    · rw [if_pos h]; exact ih seen
    · rw [if_neg h]
      simp only [List.map_cons, List.nodup_cons]
      refine ⟨?_, ih _⟩
      intro hmem
      rcases List.mem_map.mp hmem with ⟨y, hy, hky⟩
      have := (mem_dedupeByAux key _ l y).mp hy
      exact this.1 (hky ▸ List.mem_cons_self _ _)

theorem nodup_keys_dedupeBy (key : α → String) (l : List α) :
    ((dedupeBy key l).map key).Nodup :=
  nodup_keys_dedupeByAux key l []

theorem matchedIds_append (l₁ l₂ : List Channel) :
    matchedIds (l₁ ++ l₂) = matchedIds l₁ ++ matchedIds l₂ := by
  simp [matchedIds, List.filter_append]

theorem matchedIds_cons_not_truthy {ch : Channel} (h : idTruthy ch = false)
    (l : List Channel) : matchedIds (ch :: l) = matchedIds l := by
  simp [matchedIds, List.filter_cons, h]

theorem idTruthy_false_of_blank {ch : Channel}
    (h : ch.id = none ∨ ch.id = some "") : idTruthy ch = false := by
  rcases h with h | h <;> simp [idTruthy, h]

theorem foldl_processResult (dict : ChannelDict) (rs : List (Option EpgDocument)) :
    ∀ st : MainState,
      (rs.foldl (processResult dict) st).channels
          = st.channels ++ aggChannels dict rs
        ∧ (rs.foldl (processResult dict) st).programmes
          = st.programmes ++ aggProgrammes dict rs := by
  induction rs with
  | nil => intro st; simp [aggChannels, aggProgrammes, processedDocs]
  | cons r rs ih =>
    intro st
    rcases r with - | d
    · simpa [processResult, aggChannels, aggProgrammes, processedDocs,
        List.filterMap_cons] using ih st
    · by_cases h : truthyRoot d = true
      · have hstep : processResult dict st (some d)
            = ⟨if pyNotOptRoot st.first = true then some d else st.first,
               st.channels ++ (filter_channels d dict).1,
               st.programmes ++ (filter_channels d dict).2⟩ := by
          simp [processResult, h]
        have := ih ⟨if pyNotOptRoot st.first = true then some d else st.first,
          st.channels ++ (filter_channels d dict).1,
          st.programmes ++ (filter_channels d dict).2⟩
        rw [List.foldl_cons, hstep]
        constructor
        · rw [this.1]
          simp [aggChannels, processedDocs, List.filterMap_cons, h, List.append_assoc]
        · rw [this.2]
          simp [aggProgrammes, processedDocs, List.filterMap_cons, h, List.append_assoc]
      · have hfalse : truthyRoot d = false := by simpa using h
        simpa [processResult, hfalse, aggChannels, aggProgrammes, processedDocs,
          List.filterMap_cons] using ih st

theorem processAll_channels (dict : ChannelDict) (rs : List (Option EpgDocument)) :
    (processAll dict rs).channels = aggChannels dict rs :=
  (foldl_processResult dict rs ⟨none, [], []⟩).1

theorem processAll_programmes (dict : ChannelDict) (rs : List (Option EpgDocument)) :
    (processAll dict rs).programmes = aggProgrammes dict rs :=
  (foldl_processResult dict rs ⟨none, [], []⟩).2

/-! ## Claims -/

/-- C1: the filter stage keeps a channel element of a document exactly when
its computed id is among the non-empty whitelist `tvgId` values or its
resolved display name is among the non-empty whitelist `tvgName` values;
the two target lists hold exactly the non-empty `tvg_id` (resp. `tvg_name`)
fields of the whitelist entries, so an id match suffices regardless of the
display name and a name match suffices regardless of the id. -/
theorem channel_inclusion_matches_whitelist :
    (∀ (dict : ChannelDict) (root : EpgDocument) (ch : Channel),
        ch ∈ (filter_channels root dict).1 ↔
          ch ∈ root.channels ∧
            (currentTvgId ch ∈ targetTvgIds dict ∨
              currentTvgName ch ∈ targetTvgNames dict))
      ∧ (∀ (dict : ChannelDict) (s : String),
          s ∈ targetTvgIds dict ↔ s ≠ "" ∧ ∃ p ∈ dict, p.2.tvg_id = s)
      ∧ (∀ (dict : ChannelDict) (s : String),
          s ∈ targetTvgNames dict ↔ s ≠ "" ∧ ∃ p ∈ dict, p.2.tvg_name = s) := by
  refine ⟨?_, ?_, ?_⟩
  · intro dict root ch
    simp [filter_channels, channelMatches, List.mem_filter]
  · intro dict s
    simp only [targetTvgIds, List.mem_filter, List.mem_map, decide_eq_true_eq]
    tauto
  · intro dict s
    simp only [targetTvgNames, List.mem_filter, List.mem_map, decide_eq_true_eq]
    tauto

/-- C2: across the whole source loop, a programme is in the accumulated
output exactly when some processed document contains it and its stripped
`channel` attribute is among the matched ids collected from that same
document's kept channels. -/
theorem programme_inclusion_per_document :
    ∀ (dict : ChannelDict) (rs : List (Option EpgDocument)) (p : Programme),
      p ∈ (processAll dict rs).programmes ↔
        ∃ d ∈ processedDocs rs, p ∈ d.programmes ∧
          progChannel p ∈ matchedIds ((filter_channels d dict).1) := by
  intro dict rs p
  rw [processAll_programmes]
  simp [aggProgrammes, List.mem_flatMap, filter_channels, List.mem_filter]

/-- C3 counterexample: two programmes whose `(start, channel)` pairs differ
but whose composite keys `strip(start) + "_" + strip(channel)` coincide; the
second is dropped, so distinct pairs are not always both kept. -/
theorem programme_dedupe_pair_counterexample :
    (progUnderscoreStart.start, progUnderscoreStart.channel)
        ≠ (progUnderscoreChannel.start, progUnderscoreChannel.channel)
      ∧ progUnderscoreChannel ∉
          dedupeProgrammes [progUnderscoreStart, progUnderscoreChannel] := by
  decide

/-- C3 amended: the aggregator deduplicates programmes by the composite
string key `strip(start) + "_" + strip(channel)`, first occurrence winning: a
programme appears in the output exactly when it is the first element of the
concatenated list bearing its key, and the output holds exactly one
programme per key (equal stripped pairs collapse; distinct pairs collapse
too when their keys collide through the underscore join). -/
theorem programme_dedupe_composite_key :
    (∀ (l : List Programme) (p : Programme),
        p ∈ dedupeProgrammes l ↔ firstWithKey progKey p l)
      ∧ (∀ l : List Programme, ((dedupeProgrammes l).map progKey).Nodup)
      ∧ (∀ l : List Programme, ∀ p ∈ dedupeProgrammes l, ∀ q ∈ dedupeProgrammes l,
          progKey p = progKey q → p = q) := by
  refine ⟨fun l p => mem_dedupeBy progKey l p,
    fun l => nodup_keys_dedupeBy progKey l, ?_⟩
  intro l p hp q hq hk
  exact List.inj_on_of_nodup_map (nodup_keys_dedupeBy progKey l) hp hq hk

/-- C5: the aggregator deduplicates channels by the stripped `id` attribute
value, first occurrence winning: a channel is in the output exactly when it
is the first of the concatenated list bearing its key, the output holds at
most one channel per key, and a missing id and an empty-string id both give
the shared key `""`. -/
theorem channel_dedupe_first_occurrence :
    (∀ (l : List Channel) (ch : Channel),
        ch ∈ dedupeChannels l ↔ firstWithKey chKey ch l)
      ∧ (∀ l : List Channel, ∀ c1 ∈ dedupeChannels l, ∀ c2 ∈ dedupeChannels l,
          chKey c1 = chKey c2 → c1 = c2)
      ∧ (∀ dns dns2 : List (Option String),
          chKey ⟨none, dns⟩ = "" ∧ chKey ⟨some "", dns2⟩ = "") := by
  refine ⟨fun l ch => mem_dedupeBy chKey l ch, ?_, ?_⟩
  · intro l c1 h1 c2 h2 hk
    exact List.inj_on_of_nodup_map (nodup_keys_dedupeBy chKey l) h1 h2 hk
  · intro dns dns2
    exact ⟨rfl, rfl⟩

/-- C6: the generator fails (returning False and writing nothing) exactly
when the channel list it is given is empty. -/
theorem generate_aborts_iff_no_channels :
    ∀ (chs : List Channel) (fps : List Programme) (root : EpgDocument),
      generate_custom_epg chs fps root = none ↔ chs = [] := by
  intro chs fps root
  cases chs <;> simp [generate_custom_epg]

/-- C4 counterexample: a fetch that succeeds and parses, but whose root has
no child elements, is not passed to the filter stage — `if not epg_root`
tests element truthiness (child count), not just fetch failure. -/
theorem successful_childless_fetch_skipped :
    (some emptyRootDoc).isSome = true
      ∧ emptyRootDoc ∉ processedDocs [some emptyRootDoc] := by
  decide

/-- C4 amended: a fetched document is passed to the filter stage and
contributes its per-document filter output to the aggregate exactly when the
fetch succeeds and the parsed root has at least one child element; every
failed fetch (and every childless-root success) is skipped and the remaining
sources are still processed. -/
theorem source_skip_characterization :
    (∀ (rs : List (Option EpgDocument)) (d : EpgDocument),
        d ∈ processedDocs rs ↔ some d ∈ rs ∧ truthyRoot d = true)
      ∧ (∀ (dict : ChannelDict) (rs : List (Option EpgDocument)),
          (processAll dict rs).channels = aggChannels dict rs
            ∧ (processAll dict rs).programmes = aggProgrammes dict rs)
      ∧ (∀ rs : List (Option EpgDocument),
          processedDocs (none :: rs) = processedDocs rs) := by
  refine ⟨?_, ?_, ?_⟩
  · intro rs d
    simp only [processedDocs, List.mem_filterMap]
    constructor
    · rintro ⟨r, hr, hm⟩
      match r, hm with
      | none, hm => exact absurd hm (by simp)
      | some d', hm =>
        dsimp only at hm
        by_cases h : truthyRoot d' = true
        · rw [if_pos h] at hm
          cases hm
          exact ⟨hr, h⟩
        · rw [if_neg h] at hm
          cases hm
    · rintro ⟨hmem, ht⟩
      exact ⟨some d, hmem, by simp [ht]⟩
  · intro dict rs
    exact ⟨processAll_channels dict rs, processAll_programmes dict rs⟩
  · intro rs
    simp [processedDocs, List.filterMap_cons]

/-- C7: a stripped line that is non-blank, is no comment, contains a comma
and does not split into exactly three fields leaves the loader state (dict
and current country alike) unchanged. -/
theorem malformed_field_count_line_skipped (st : LoaderState) (rawLine : String)
    (hne : pyStrip rawLine ≠ "")
    (hnc : startsWithHash (pyStrip rawLine) = false)
    (hc : hasComma (pyStrip rawLine) = true)
    (hlen : (splitCommas (pyStrip rawLine)).length ≠ 3) :
    processLine st rawLine = st := by
  unfold processLine
  rw [if_neg (by simp [hne, hnc]), if_neg (by simp [hc])]
  simp only [if_pos hlen]

/-- C7 witness: the four-field line `a,b,c,d` is skipped. -/
theorem malformed_field_count_line_skipped_witness :
    processLine ⟨[], some "UK GB"⟩ "a,b,c,d" = ⟨[], some "UK GB"⟩ :=
  malformed_field_count_line_skipped ⟨[], some "UK GB"⟩ "a,b,c,d"
    (by decide) (by decide) (by decide) (by decide)

/-- A well-formed channel line processed while no country line has been seen
leaves the loader state unchanged. -/
theorem processLine_no_country (st : LoaderState) (raw : String)
    (hnone : st.currentCountry = none)
    (hc : hasComma (pyStrip raw) = true)
    (hl : (splitCommas (pyStrip raw)).length = 3) :
    processLine st raw = st := by
  unfold processLine
  by_cases hb : pyStrip raw = "" ∨ startsWithHash (pyStrip raw) = true
  · rw [if_pos hb]
  · rw [if_neg hb, if_neg (by simp [hc])]
    simp only [if_neg (by simp [hl] : ¬(splitCommas (pyStrip raw)).length ≠ 3), hnone]

/-- C8: inserting a three-field channel line at a point of the whitelist
file where no country line has yet occurred yields the same mapping as
leaving the line out. -/
theorem channel_line_before_country_skipped (pre post : List String)
    (rawLine : String)
    (hnone : (pre.foldl processLine initLoaderState).currentCountry = none)
    (hc : hasComma (pyStrip rawLine) = true)
    (hlen : (splitCommas (pyStrip rawLine)).length = 3) :
    read_channel_list (pre ++ rawLine :: post) = read_channel_list (pre ++ post) := by
  unfold read_channel_list
  rw [List.foldl_append, List.foldl_append, List.foldl_cons,
    processLine_no_country _ _ hnone hc hlen]

/-- C8 witness: the channel line `a,b,c` with no preceding country line
leaves the mapping as if absent. -/
theorem channel_line_before_country_skipped_witness :
    read_channel_list ["a,b,c"] = read_channel_list [] :=
  channel_line_before_country_skipped [] [] "a,b,c" rfl (by decide) (by decide)

/-- C9: processing a valid channel line (comma present, exactly three
fields, not both id and name blank) while a country is current stores under
the key `tvg_id ++ "_" ++ tvg_name` exactly the entry built from this line
— its fields, the current country and its remark — replacing whatever entry
the key held before. -/
theorem duplicate_key_overwritten_by_later_line (st : LoaderState)
    (rawLine country : String)
    (hcountry : st.currentCountry = some country)
    (hc : hasComma (pyStrip rawLine) = true)
    (hlen : (splitCommas (pyStrip rawLine)).length = 3)
    (hnc : startsWithHash (pyStrip rawLine) = false)
    (hnonempty : ¬(pyStrip ((splitCommas (pyStrip rawLine)).getD 0 "") = ""
        ∧ pyStrip ((splitCommas (pyStrip rawLine)).getD 1 "") = "")) :
    dictLookup (processLine st rawLine).dict
        (pyStrip ((splitCommas (pyStrip rawLine)).getD 0 "") ++ "_"
          ++ pyStrip ((splitCommas (pyStrip rawLine)).getD 1 ""))
      = some ⟨pyStrip ((splitCommas (pyStrip rawLine)).getD 0 ""),
          pyStrip ((splitCommas (pyStrip rawLine)).getD 1 ""), country,
          pyStrip ((splitCommas (pyStrip rawLine)).getD 2 "")⟩ := by
  have hne : pyStrip rawLine ≠ "" := hasComma_ne_empty hc
  unfold processLine
  rw [if_neg (by simp [hne, hnc]), if_neg (by simp [hc])]
  simp only [if_neg (by simp [hlen] : ¬(splitCommas (pyStrip rawLine)).length ≠ 3),
    hcountry, if_neg hnonempty]
  exact dictLookup_dictInsert_self _ _ _

/-- C9 witness: the line `a,b,r2` under country `Y` overwrites the entry the
key `a_b` previously held (country `X`, remark `r1`). -/
theorem duplicate_key_overwritten_by_later_line_witness :
    dictLookup (processLine ⟨[("a_b", ⟨"a", "b", "X", "r1"⟩)], some "Y"⟩ "a,b,r2").dict "a_b"
      = some ⟨"a", "b", "Y", "r2"⟩ :=
  duplicate_key_overwritten_by_later_line ⟨[("a_b", ⟨"a", "b", "X", "r1"⟩)], some "Y"⟩
    "a,b,r2" "Y" rfl (by decide) (by decide) (by decide) (by decide)

/-- C10: a channel kept by display-name match whose `id` attribute is absent
or the empty string adds nothing to the per-document matched-id list, and
the programme output of the document is the same as if the channel were not
there at all. -/
theorem blank_id_channel_contributes_no_programmes (dict : ChannelDict)
    (attrib : List (String × String)) (pre post : List Channel) (ch0 : Channel)
    (progs : List Programme) (k : Nat)
    (hmatch : channelMatches dict ch0 = true)
    (hid : ch0.id = none ∨ ch0.id = some "") :
    matchedIds ((filter_channels ⟨attrib, pre ++ ch0 :: post, progs, k⟩ dict).1)
        = matchedIds ((filter_channels ⟨attrib, pre ++ post, progs, k⟩ dict).1)
      ∧ (filter_channels ⟨attrib, pre ++ ch0 :: post, progs, k⟩ dict).2
        = (filter_channels ⟨attrib, pre ++ post, progs, k⟩ dict).2 := by
  have hids : matchedIds (List.filter (channelMatches dict) (pre ++ ch0 :: post))
      = matchedIds (List.filter (channelMatches dict) (pre ++ post)) := by
    rw [List.filter_append, List.filter_append,
      List.filter_cons_of_pos hmatch, matchedIds_append, matchedIds_append,
      matchedIds_cons_not_truthy (idTruthy_false_of_blank hid)]
  refine ⟨hids, ?_⟩
  simp only [filter_channels, hids]

/-- C10 witness: a channel with no id, kept by the name `BBC One`, yields no
matched id and lets no programme through on its account. -/
theorem blank_id_channel_contributes_no_programmes_witness :
    matchedIds ((filter_channels ⟨[], [⟨none, [some "BBC One"]⟩], [⟨some "s", some "X"⟩], 0⟩
          nameOnlyDict).1)
        = matchedIds ((filter_channels ⟨[], [], [⟨some "s", some "X"⟩], 0⟩ nameOnlyDict).1)
      ∧ (filter_channels ⟨[], [⟨none, [some "BBC One"]⟩], [⟨some "s", some "X"⟩], 0⟩
          nameOnlyDict).2
        = (filter_channels ⟨[], [], [⟨some "s", some "X"⟩], 0⟩ nameOnlyDict).2 :=
  blank_id_channel_contributes_no_programmes nameOnlyDict [] [] []
    ⟨none, [some "BBC One"]⟩ [⟨some "s", some "X"⟩] 0 (by decide) (Or.inl rfl)

end EpgFilter
